import Mathlib

/- Verification of the document-store and answer-fusion core of the
haystack-style question-answering repository.

Part A embeds `src/haystack/database/sql.py` (SQLDocumentStore): the ORM
rows, tag filtering, document lookup and `write_documents` with its
meta-folding of extra record fields.

Part B embeds `src/haystack/reader/farm.py` (FARMReader.predict,
`_check_no_answer`, `_calc_no_answer`) and the context-window clamping of
`src/haystack/reader/transformers.py` (TransformersReader.predict).

Numeric model: Python floats are embedded as exact rationals; machine
integers as Int/Nat. Python exceptions are embedded as `Except PyError`.
The logistic pseudo-probability `expit(score/8)` is strictly increasing in
`score`, so the sort of the merged answer pool by descending probability is
embedded as the (stable) sort by descending `score`; Python `sorted` with
`reverse=True` is stable, and a stable sort is uniquely determined by its
comparison preorder, so a stable insertion sort gives the same list. -/

/-- Python exceptions raised by the embedded code paths.
`invalidQuery` is the bare `Exception` raised by `get_document_ids_by_tags`
on an empty criteria set; `attributeError` is the `AttributeError` raised by
`_convert_sql_row_to_document` when it dereferences a `None` row;
`keyError` is the `KeyError` from `doc["text"]` on a record without `text`;
`emptyCorpus` is the numpy `ValueError` raised by `np.max` over the empty
gap array in `_calc_no_answer` (the spec's error taxonomy names this
failure `EmptyCorpus`). -/
inductive PyError where
  | invalidQuery
  | attributeError
  | keyError
  | emptyCorpus
deriving DecidableEq, Repr

/-- A row of the `tag` table: `name` and `value` columns. -/
structure TagRow where
  name : String
  value : String
deriving DecidableEq, Repr

/-- A Python value, as far as the embedded code inspects one: strings,
integers, and dictionaries with string keys (insertion-ordered association
lists, matching Python dict semantics). -/
inductive PyVal where
  | str : String → PyVal
  | int : Int → PyVal
  | dict : List (String × PyVal) → PyVal
deriving Repr

/-- A row of the `document` table together with its `tags` relationship
(the rows of `tag` associated to it through `document_tag`).
`meta_data` is the pickled blob column. -/
structure DocumentRow where
  id : Nat
  text : PyVal
  meta_data : PyVal
  tags : List TagRow
deriving Repr

/-- The `Document` schema object of `haystack.database.base` as constructed
by `_convert_sql_row_to_document` (fields `id`, `text`, `meta`, `tags`). -/
structure DocumentSchema where
  id : Nat
  text : PyVal
  meta : PyVal
  tags : List TagRow
deriving Repr

/-- Embeds `SQLDocumentStore._convert_sql_row_to_document`. The Python
function receives the raw query result, which is `None` on a lookup miss,
and unconditionally reads `row.id`, so a `None` row raises
`AttributeError`. -/
def convert_sql_row_to_document (row : Option DocumentRow) :
    Except PyError DocumentSchema :=
  match row with
  | none => .error .attributeError
  | some r => .ok { id := r.id, text := r.text, meta := r.meta_data, tags := r.tags }

/-- Embeds `SQLDocumentStore.get_document_by_id`: a primary-key lookup
(`session.query(Document).get(id)`, i.e. the unique row with that id, or
`None`) fed to `_convert_sql_row_to_document`. -/
def get_document_by_id (rows : List DocumentRow) (id : Nat) :
    Except PyError DocumentSchema :=
  convert_sql_row_to_document (rows.find? (fun r => r.id == id))

/-- Embeds `SQLDocumentStore.get_document_ids_by_tags`. An empty criteria
dict raises (`invalidQuery`). Otherwise the generated SQL groups the rows
of `document_tag JOIN tag` by document (so only documents with at least one
tag row appear) and keeps a document iff, for every key `k` of the criteria
dict, `SUM(CASE WHEN t.value = k THEN 1 ELSE 0 END) > 0`; the outer query
returns the surviving ids in document-table order. Note that the Python
loop `for tag in tags` iterates the KEYS of the criteria dict and compares
them against the tag `value` column; the dict's values are never read,
which is why they do not occur in this definition. -/
def get_document_ids_by_tags (rows : List DocumentRow)
    (tags : List (String × String)) : Except PyError (List Nat) :=
  if tags.isEmpty then .error .invalidQuery
  else .ok ((rows.filter (fun d =>
      !d.tags.isEmpty &&
      tags.all (fun kv =>
        decide (0 < d.tags.countP (fun t => t.value == kv.1))))).map
    (fun d => d.id))

/-- Embeds `SQLDocumentStore.get_document_count`. -/
def get_document_count (rows : List DocumentRow) : Nat := rows.length

/-- A caller-supplied record passed to `write_documents`: a Python dict,
i.e. an insertion-ordered association list with (at most) one entry per
key. -/
abbrev Record := List (String × PyVal)

/-- Python dict item assignment `d[k] = v`: an existing key keeps its
position and gets the new value; a fresh key is appended at the end. -/
def setKey (r : Record) (k : String) (v : PyVal) : Record :=
  match r with
  | [] => [(k, v)]
  | (k₁, v₁) :: rest =>
      if k₁ = k then (k, v) :: rest else (k₁, v₁) :: setKey rest k v

/-- Python dict lookup `d[k]` / `k in d` support: the value at the first
(unique) entry with key `k`. -/
def lookupKey (r : Record) (k : String) : Option PyVal :=
  match r with
  | [] => none
  | (k₁, v₁) :: rest => if k₁ = k then some v₁ else lookupKey rest k

/-- Python `k in d.keys()`. -/
def containsKey (r : Record) (k : String) : Bool :=
  (lookupKey r k).isSome

/-- The entries of the record's `"meta"` dict. After
`if "meta" not in doc.keys(): doc["meta"] = {}` the key is always present;
the catch-all arm corresponds to a record whose pre-existing `meta` value
is not a dict, on which the Python `doc["meta"][k] = v` would raise
`TypeError` — the theorems below assume `meta`, when present, is a dict. -/
def metaEntries (r : Record) : List (String × PyVal) :=
  match lookupKey r "meta" with
  | some (.dict m) => m
  | _ => []

/-- The keys `write_documents` does NOT fold into `meta`:
`k not in ["text", "meta", "tags"]`. -/
def isReserved (k : String) : Bool :=
  k = "text" || k = "meta" || k = "tags"

/-- One step of the folding loop of `write_documents`:
`doc["meta"][k] = v` for a non-reserved key, no-op otherwise. -/
def foldStep (acc : Record) (kv : String × PyVal) : Record :=
  if isReserved kv.1 then acc
  else setKey acc "meta" (.dict (setKey (metaEntries acc) kv.1 kv.2))

/-- The in-place mutation `write_documents` performs on each record:
ensure a `"meta"` key (`doc["meta"] = {}` when absent), then for every
item `(k, v)` of the record put the non-reserved ones into `doc["meta"]`.
The loop iterates the record's items as they stand when the loop starts
(the key set does not change during the loop; only the value behind
`"meta"` is mutated, and the `"meta"` item itself is skipped as reserved),
so folding over that snapshot is faithful. -/
def processRecord (r : Record) : Record :=
  let r₁ := if containsKey r "meta" then r else setKey r "meta" (.dict [])
  r₁.foldl foldStep r₁

/-- The meta-dict evolution along the folding loop, viewed on the entries
of the `"meta"` dict alone: one loop step either leaves it unchanged
(reserved key) or assigns `m[k] = v`. Used to state invariants about
`processRecord`. -/
def metaStep (m : List (String × PyVal)) (kv : String × PyVal) :
    List (String × PyVal) :=
  if isReserved kv.1 then m else setKey m kv.1 kv.2

/-- Embeds the per-record tail of `write_documents`:
`Document(text=doc["text"], meta_data=doc.get("meta", {}))` appended to the
session. `doc["text"]` raises `KeyError` when the record has no `text`
key. The new row's primary key is the next integer
(SQLite autoincrement); no tag rows are created on this code path. -/
def writeOne (rows : List DocumentRow) (r : Record) :
    Except PyError (List DocumentRow × Record) :=
  let r₁ := processRecord r
  match lookupKey r₁ "text" with
  | none => .error .keyError
  | some t =>
      .ok (rows ++ [{ id := rows.length + 1, text := t,
                      meta_data := (lookupKey r₁ "meta").getD (.dict []),
                      tags := [] }], r₁)

/-- Embeds `SQLDocumentStore.write_documents`: each record is mutated
(meta-folding) and a `document` row is added; the batch is committed at the
end. Returns the new table contents together with the records as the
caller observes them after the call (the mutation is in place). -/
def write_documents (rows : List DocumentRow) (docs : List Record) :
    Except PyError (List DocumentRow × List Record) :=
  match docs with
  | [] => .ok (rows, [])
  | d :: ds =>
      match writeOne rows d with
      | .error e => .error e
      | .ok (rows₁, r₁) =>
          match write_documents rows₁ ds with
          | .error e => .error e
          | .ok (rows₂, rs) => .ok (rows₂, r₁ :: rs)

/-- A FARM `QACandidate` as `FARMReader.predict` inspects it: answer text
(the sentinel string `"no_answer"` marks a document's no-answer
placeholder), raw score, character offsets of the span and of the context
window. Scores are exact rationals in place of Python floats. -/
structure QACandidate where
  answer : String
  score : ℚ
  offset_answer_start : Int
  offset_answer_end : Int
  offset_context_window_start : Int
  context_window : String
deriving DecidableEq, Repr

/-- A FARM `QAPred`: the per-document inference result consumed by
`FARMReader.predict` — the document id (`pred.id`), the document's
`no_answer_gap` and its candidate list (pre-sorted by decreasing relevance
by FARM). -/
structure QAPred where
  id : Nat
  no_answer_gap : ℚ
  prediction : List QACandidate
deriving DecidableEq, Repr

/-- One entry of the merged answer list built by `FARMReader.predict`.
A genuine span has `answer`, `context`, `document_id` and in-document
offsets set; the synthesized no-answer entry has `answer = None`,
`context = None`, `document_id = None`, zero window offsets and (in the
source dict) no in-document offset keys at all, embedded here as `none`.
The float field `probability = expit(score/8)` is a strictly increasing
function of `score` and is omitted; ordering by probability is ordering by
`score`. -/
structure FusedAnswer where
  answer : Option String
  score : ℚ
  context : Option String
  offset_start : Int
  offset_end : Int
  offset_start_in_doc : Option Int
  offset_end_in_doc : Option Int
  document_id : Option Nat
deriving DecidableEq, Repr

/-- Reader configuration relevant to `predict`: `return_no_answers` is set
in `__init__` from `no_ans_boost` (`False` iff `no_ans_boost is None`);
`top_k_per_candidate` is the per-document cap applied before merging. -/
structure FARMConfig where
  return_no_answers : Bool
  top_k_per_candidate : Nat
deriving Repr

/-- Embeds `FARMReader._check_no_answer`. The source first logs an error
when the offsets are `(0, 0)` but the answer string is not `"no_answer"`;
logging does not affect the returned value. The returned decision depends
only on the answer text: `True` iff `c.answer == "no_answer"`. -/
def check_no_answer (c : QACandidate) : Bool :=
  if c.answer = "no_answer" then true else false

/-- The dict built for one kept candidate in the loop of
`FARMReader.predict` (window offsets relative to the context window,
in-document offsets absolute). -/
def formatAnswer (docId : Nat) (a : QACandidate) : FusedAnswer :=
  { answer := some a.answer,
    score := a.score,
    context := some a.context_window,
    offset_start := a.offset_answer_start - a.offset_context_window_start,
    offset_end := a.offset_answer_end - a.offset_context_window_start,
    offset_start_in_doc := some a.offset_answer_start,
    offset_end_in_doc := some a.offset_answer_end,
    document_id := some docId }

/-- The per-document contribution to the merged pool: skip the candidates
`_check_no_answer` flags, format the rest, and keep only the first
`top_k_per_candidate` of them (`answers_per_document[:self.top_k_per_candidate]`). -/
def answersOfPred (cfg : FARMConfig) (p : QAPred) : List FusedAnswer :=
  ((p.prediction.filter (fun a => !check_no_answer a)).map
    (formatAnswer p.id)).take cfg.top_k_per_candidate

/-- All documents' kept-and-capped candidates, concatenated in document
order (`answers += answers_per_document[:self.top_k_per_candidate]`). -/
def keptAnswers (cfg : FARMConfig) (preds : List QAPred) : List FusedAnswer :=
  preds.flatMap (answersOfPred cfg)

/-- Embeds the `best_score_answer` accumulator of `FARMReader.predict`:
initialised to `0`, and updated by `if ans.score > best_score_answer` for
every candidate that passes `_check_no_answer` (the update happens before
the per-document `top_k_per_candidate` truncation, so all kept candidates
participate). -/
def bestScoreAnswer (preds : List QAPred) : ℚ :=
  preds.foldl
    (fun b p => p.prediction.foldl
      (fun b₁ a =>
        if check_no_answer a then b₁
        else if b₁ < a.score then a.score else b₁) b)
    0

/-- Embeds `FARMReader._calc_no_answer`. `np.max` over an empty gap array
raises (`none` here); otherwise `max_no_ans_gap` is the maximum gap, and
both arms of the all-gaps-negative test compute the same
`no_ans_score = best_score_answer - max_no_ans_gap`. The returned dict has
`answer`, `context` and `document_id` set to `None` and window offsets
`0`. -/
def calc_no_answer (no_ans_gaps : List ℚ) (best_score_answer : ℚ) :
    Option (FusedAnswer × ℚ) :=
  match no_ans_gaps with
  | [] => none
  | g :: gs =>
      let max_no_ans_gap := gs.foldl max g
      let no_ans_score :=
        if (g :: gs).all (fun x => decide (x < 0)) then
          best_score_answer - max_no_ans_gap
        else
          best_score_answer - max_no_ans_gap
      some ({ answer := none, score := no_ans_score, context := none,
              offset_start := 0, offset_end := 0,
              offset_start_in_doc := none, offset_end_in_doc := none,
              document_id := none }, max_no_ans_gap)

/-- Stable insertion of an answer into a list sorted by descending score:
the new element goes before the first strictly smaller score and after all
scores ≥ its own, which is exactly where Python's stable
`sorted(..., key=probability, reverse=True)` places a later element. -/
def insertDesc (a : FusedAnswer) : List FusedAnswer → List FusedAnswer
  | [] => [a]
  | b :: bs => if b.score ≤ a.score then a :: b :: bs else b :: insertDesc a bs

/-- The sort of the merged pool by descending probability. Since
`expit(score/8)` is strictly increasing in `score`, sorting by descending
probability is sorting by descending `score`; Python's `sorted` is stable
and a stable sort is determined by its comparison preorder, so this stable
insertion sort returns the same list. -/
def sortAnswers : List FusedAnswer → List FusedAnswer
  | [] => []
  | a :: as_ => insertDesc a (sortAnswers as_)

/-- The Python slice `answers[:top_k]`: everything when `top_k` is `None`,
the first `k` elements when it is a natural number `k`. -/
def truncateTopK (topK : Option Nat) (l : List FusedAnswer) : List FusedAnswer :=
  match topK with
  | none => l
  | some k => l.take k

/-- The merged candidate pool before sorting: all documents' kept
candidates, plus the synthesized no-answer entry when the reader was
configured to return no-answers. -/
def mergedPool (cfg : FARMConfig) (preds : List QAPred)
    (noAns : FusedAnswer) : List FusedAnswer :=
  if cfg.return_no_answers then keptAnswers cfg preds ++ [noAns]
  else keptAnswers cfg preds

/-- The result dict of `FARMReader.predict`. -/
structure FusionResult where
  question : String
  no_ans_gap : ℚ
  answers : List FusedAnswer
deriving DecidableEq, Repr

/-- Embeds `FARMReader.predict` from the point where the per-document
inference results are in hand (the model call itself is the external
Inference Adapter): collect the gaps and the kept candidates, compute
`best_score_answer`, derive the no-answer entry (propagating the empty-gap
failure), optionally append it, sort by descending probability and
truncate to `top_k`. -/
def predict (cfg : FARMConfig) (question : String) (preds : List QAPred)
    (topK : Option Nat) : Except PyError FusionResult :=
  let no_ans_gaps := preds.map (fun p => p.no_answer_gap)
  match calc_no_answer no_ans_gaps (bestScoreAnswer preds) with
  | none => .error .emptyCorpus
  | some (noAns, max_no_ans_gap) =>
      .ok { question := question,
            no_ans_gap := max_no_ans_gap,
            answers := truncateTopK topK
              (sortAnswers (mergedPool cfg preds noAns)) }

/-- Embeds the context-window clamping of `TransformersReader.predict`:
`context_start = max(0, start - window)` and
`context_end = min(len(text), end + window)`. -/
def contextWindowBounds (textLen start finish window : Int) : Int × Int :=
  (max 0 (start - window), min textLen (finish + window))

/-- The kept (non-no-answer) candidates' raw scores, in processing order,
across all documents. -/
def keptScores (preds : List QAPred) : List ℚ :=
  preds.flatMap (fun p =>
    (p.prediction.filter (fun a => !check_no_answer a)).map (fun a => a.score))

/-- Modelled from the spec's words, for comparison with the source's
`bestScoreAnswer` accumulator: "the maximum raw score seen across all kept
candidates of all documents" (absent when there is no kept candidate). -/
def maxKeptScoreSpec (preds : List QAPred) : Option ℚ :=
  (keptScores preds).max?

/- Concrete inputs used by witnesses and counterexamples. -/

/-- A store with two tagged documents, for exercising tag filtering. -/
def tagStoreEx : List DocumentRow :=
  [ { id := 1, text := .str "t1", meta_data := .dict [],
      tags := [{ name := "n1", value := "color" }] },
    { id := 2, text := .str "t2", meta_data := .dict [],
      tags := [{ name := "n1", value := "size" },
               { name := "n2", value := "color" }] } ]

/-- The spec's worked fusion example, document D1: gap `-2.0`, one
candidate with score `9.0`. -/
def predD1 : QAPred :=
  { id := 1, no_answer_gap := -2,
    prediction := [{ answer := "Eddard", score := 9,
                     offset_answer_start := 10, offset_answer_end := 16,
                     offset_context_window_start := 2,
                     context_window := "ctx one" }] }

/-- The spec's worked fusion example, document D2: gap `1.5`, one
candidate with score `7.0`. -/
def predD2 : QAPred :=
  { id := 2, no_answer_gap := 3 / 2,
    prediction := [{ answer := "Jon", score := 7,
                     offset_answer_start := 4, offset_answer_end := 7,
                     offset_context_window_start := 0,
                     context_window := "ctx two" }] }

/-- A reader configured to return no-answers (`no_ans_boost` given), with
the default per-document cap of 3. -/
def cfgEx : FARMConfig := { return_no_answers := true, top_k_per_candidate := 3 }

/-- A document whose only kept candidate has the negative score `-5`. -/
def predNeg : QAPred :=
  { id := 7, no_answer_gap := 0,
    prediction := [{ answer := "dusk", score := -5,
                     offset_answer_start := 3, offset_answer_end := 7,
                     offset_context_window_start := 0,
                     context_window := "at dusk it" }] }

/-- A candidate carrying the `"no_answer"` sentinel text but a non-zero
offset pair. -/
def candSentinelNonzero : QACandidate :=
  { answer := "no_answer", score := 5,
    offset_answer_start := 3, offset_answer_end := 7,
    offset_context_window_start := 0, context_window := "w" }

/-- A candidate carrying the `"no_answer"` sentinel text and the zero
offset pair. -/
def candSentinelZero : QACandidate :=
  { answer := "no_answer", score := 1,
    offset_answer_start := 0, offset_answer_end := 0,
    offset_context_window_start := 0, context_window := "z" }

/-- A reader configured without no-answer reporting and a per-document cap
of 2. -/
def cfgNoNA : FARMConfig := { return_no_answers := false, top_k_per_candidate := 2 }

/-- A single-document inference result with one genuine candidate. -/
def predSingle : QAPred :=
  { id := 3, no_answer_gap := 1,
    prediction := [{ answer := "Bran", score := 4,
                     offset_answer_start := 0, offset_answer_end := 4,
                     offset_context_window_start := 0,
                     context_window := "Bran the" }] }

/-- A caller record with one extra field beside `text`. -/
def recordEx : Record := [("text", .str "x"), ("author", .str "a")]

/-- A caller record with a pre-existing `meta` dict and an extra field. -/
def recordWithMeta : Record :=
  [("text", .str "grass"), ("color", .str "green"),
   ("meta", .dict [("lang", .str "en")])]

/-- The `document` row `write_documents` creates for a record with text
value `tv` and folded meta entries `m`, appended after `rows`. -/
def writtenRow (rows : List DocumentRow) (tv : PyVal)
    (m : List (String × PyVal)) : DocumentRow :=
  { id := rows.length + 1, text := tv, meta_data := .dict m, tags := [] }

/- Helper lemmas (shared across claim proofs). -/

theorem lookupKey_setKey_self (r : Record) (k : String) (v : PyVal) :
    lookupKey (setKey r k v) k = some v := by
  induction r with
  | nil => simp [setKey, lookupKey]
  | cons kv rest ih =>
      obtain ⟨k₁, v₁⟩ := kv
      by_cases h : k₁ = k
      · simp [setKey, lookupKey, h]
      · simp [setKey, lookupKey, h, ih]

theorem lookupKey_setKey_ne (r : Record) (k k' : String) (v : PyVal)
    (h : k' ≠ k) : lookupKey (setKey r k v) k' = lookupKey r k' := by
  have hk : ¬k = k' := fun he => h he.symm
  induction r with
  | nil =>
      simp only [setKey, lookupKey]
      rw [if_neg hk]
  | cons kv rest ih =>
      obtain ⟨k₁, v₁⟩ := kv
      by_cases h₁ : k₁ = k
      · subst h₁
        simp only [setKey, if_pos rfl, lookupKey]
        rw [if_neg hk, if_neg hk]
      · simp only [setKey, if_neg h₁, lookupKey]
        by_cases h₂ : k₁ = k'
        · rw [if_pos h₂, if_pos h₂]
        · rw [if_neg h₂, if_neg h₂, ih]

theorem setKey_of_not_contains (r : Record) (k : String) (v : PyVal)
    (h : containsKey r k = false) : setKey r k v = r ++ [(k, v)] := by
  induction r with
  | nil => simp [setKey]
  | cons kv rest ih =>
      obtain ⟨k₁, v₁⟩ := kv
      simp only [containsKey, lookupKey] at h
      by_cases h₁ : k₁ = k
      · simp [h₁, Option.isSome] at h
      · simp only [h₁, if_false] at h
        simp [setKey, h₁, ih h]

theorem containsKey_iff_exists_mem (r : Record) (k : String) :
    containsKey r k = true ↔ ∃ kv ∈ r, kv.1 = k := by
  induction r with
  | nil => simp [containsKey, lookupKey]
  | cons kv rest ih =>
      obtain ⟨k₁, v₁⟩ := kv
      by_cases h₁ : k₁ = k
      · simp [containsKey, lookupKey, h₁]
      · simp only [containsKey, lookupKey, h₁, if_false]
        rw [containsKey] at ih
        rw [ih]
        constructor
        · rintro ⟨kv, hmem, hk⟩
          exact ⟨kv, List.mem_cons_of_mem _ hmem, hk⟩
        · rintro ⟨kv, hmem, hk⟩
          rcases List.mem_cons.mp hmem with h | h
          · subst h
            exact absurd hk h₁
          · exact ⟨kv, h, hk⟩

theorem lookupKey_of_mem_nodup (r : Record) (kv : String × PyVal)
    (hnd : (r.map Prod.fst).Nodup) (hmem : kv ∈ r) :
    lookupKey r kv.1 = some kv.2 := by
  induction r with
  | nil => simp at hmem
  | cons kv₁ rest ih =>
      obtain ⟨k₁, v₁⟩ := kv₁
      simp only [List.map_cons, List.nodup_cons] at hnd
      rcases List.mem_cons.mp hmem with h | h
      · subst h
        simp [lookupKey]
      · have hk : k₁ ≠ kv.1 := by
          intro he
          exact hnd.1 (he ▸ (List.mem_map.mpr ⟨kv, h, rfl⟩))
        simp [lookupKey, Ne.symm hk, hk, ih hnd.2 h]

theorem containsKey_append (r₁ r₂ : Record) (k : String) :
    containsKey (r₁ ++ r₂) k = (containsKey r₁ k || containsKey r₂ k) := by
  induction r₁ with
  | nil => simp [containsKey, lookupKey]
  | cons kv rest ih =>
      obtain ⟨k₁, v₁⟩ := kv
      by_cases h₁ : k₁ = k
      · simp [containsKey, lookupKey, h₁]
      · simpa [containsKey, lookupKey, h₁] using ih

theorem foldl_foldStep_meta (entries : List (String × PyVal)) :
    ∀ (acc : Record) (m : List (String × PyVal)),
      lookupKey acc "meta" = some (.dict m) →
      lookupKey (entries.foldl foldStep acc) "meta" =
        some (.dict (entries.foldl metaStep m)) ∧
      ∀ k, k ≠ "meta" →
        lookupKey (entries.foldl foldStep acc) k = lookupKey acc k := by
  induction entries with
  | nil => intro acc m hm; exact ⟨by simpa using hm, fun k _ => rfl⟩
  | cons kv rest ih =>
      intro acc m hm
      by_cases hres : isReserved kv.1
      · have hstep : foldStep acc kv = acc := by simp [foldStep, hres]
        have hm₁ : metaStep m kv = m := by simp [metaStep, hres]
        simpa [List.foldl_cons, hstep, hm₁] using ih acc m hm
      · have hme : metaEntries acc = m := by simp [metaEntries, hm]
        have hstep : foldStep acc kv =
            setKey acc "meta" (.dict (setKey m kv.1 kv.2)) := by
          simp [foldStep, hres, hme]
        have hm₁ : metaStep m kv = setKey m kv.1 kv.2 := by
          simp [metaStep, hres]
        have hlook : lookupKey (setKey acc "meta" (.dict (setKey m kv.1 kv.2)))
            "meta" = some (.dict (setKey m kv.1 kv.2)) :=
          lookupKey_setKey_self _ _ _
        obtain ⟨h₁, h₂⟩ := ih _ _ hlook
        refine ⟨by simpa [List.foldl_cons, hstep, hm₁] using h₁, ?_⟩
        intro k hk
        rw [List.foldl_cons, hstep, h₂ k hk, lookupKey_setKey_ne _ _ _ _ hk]

theorem foldl_metaStep_append (entries : List (String × PyVal)) :
    ∀ (m : List (String × PyVal)),
      (entries.map Prod.fst).Nodup →
      (∀ kv ∈ entries, isReserved kv.1 = false → containsKey m kv.1 = false) →
      entries.foldl metaStep m =
        m ++ entries.filter (fun kv => !isReserved kv.1) := by
  induction entries with
  | nil => intro m _ _; simp
  | cons kv rest ih =>
      intro m hnd hfresh
      simp only [List.map_cons, List.nodup_cons] at hnd
      by_cases hres : isReserved kv.1
      · have hstep : metaStep m kv = m := by simp [metaStep, hres]
        rw [List.foldl_cons, hstep,
          ih m hnd.2 (fun kv' h h' => hfresh kv' (List.mem_cons_of_mem _ h) h'),
          List.filter_cons_of_neg (by simp [hres])]
      · have hfr : containsKey m kv.1 = false :=
          hfresh kv (List.mem_cons_self _ _) (by simp [hres])
        have hstep : metaStep m kv = m ++ [kv] := by
          simp [metaStep, hres, setKey_of_not_contains _ _ _ hfr]
        have hfresh' : ∀ kv' ∈ rest, isReserved kv'.1 = false →
            containsKey (m ++ [kv]) kv'.1 = false := by
          intro kv' hm' hr'
          rw [containsKey_append]
          have h₁ : containsKey m kv'.1 = false :=
            hfresh kv' (List.mem_cons_of_mem _ hm') hr'
          have h₂ : containsKey [kv] kv'.1 = false := by
            have : kv.1 ≠ kv'.1 := by
              intro he
              exact hnd.1 (he ▸ List.mem_map.mpr ⟨kv', hm', rfl⟩)
            simp [containsKey, lookupKey, this]
          rw [h₁, h₂]
          rfl
        rw [List.foldl_cons, hstep, ih _ hnd.2 hfresh',
          List.filter_cons_of_pos (by simp [hres])]
        simp

theorem lookupKey_foldl_metaStep_ne (entries : List (String × PyVal)) :
    ∀ (m : List (String × PyVal)) (k : String),
      (∀ kv ∈ entries, isReserved kv.1 = false → kv.1 ≠ k) →
      lookupKey (entries.foldl metaStep m) k = lookupKey m k := by
  induction entries with
  | nil => intro m k _; rfl
  | cons kv rest ih =>
      intro m k hne
      by_cases hres : isReserved kv.1
      · have hstep : metaStep m kv = m := by simp [metaStep, hres]
        rw [List.foldl_cons, hstep,
          ih m k (fun kv' h h' => hne kv' (List.mem_cons_of_mem _ h) h')]
      · have hstep : metaStep m kv = setKey m kv.1 kv.2 := by
          simp [metaStep, hres]
        have hk : kv.1 ≠ k := hne kv (List.mem_cons_self _ _) (by simp [hres])
        rw [List.foldl_cons, hstep,
          ih _ k (fun kv' h h' => hne kv' (List.mem_cons_of_mem _ h) h'),
          lookupKey_setKey_ne _ _ _ _ (Ne.symm hk)]

theorem lookupKey_foldl_metaStep_mem (entries : List (String × PyVal)) :
    ∀ (m : List (String × PyVal)) (kv : String × PyVal),
      (entries.map Prod.fst).Nodup →
      kv ∈ entries → isReserved kv.1 = false →
      lookupKey (entries.foldl metaStep m) kv.1 = some kv.2 := by
  induction entries with
  | nil => intro m kv _ hmem; simp at hmem
  | cons kv₁ rest ih =>
      intro m kv hnd hmem hres
      simp only [List.map_cons, List.nodup_cons] at hnd
      rcases List.mem_cons.mp hmem with h | h
      · subst h
        have hstep : metaStep m kv = setKey m kv.1 kv.2 := by
          simp [metaStep, hres]
        rw [List.foldl_cons, hstep,
          lookupKey_foldl_metaStep_ne rest _ kv.1 ?_,
          lookupKey_setKey_self]
        intro kv' hm' _ he
        exact hnd.1 (he ▸ List.mem_map.mpr ⟨kv', hm', rfl⟩)
      · exact ih _ kv hnd.2 h hres

theorem find?_append_of_none {α : Type} (l₁ l₂ : List α) (p : α → Bool)
    (h : ∀ x ∈ l₁, p x = false) :
    List.find? p (l₁ ++ l₂) = List.find? p l₂ := by
  induction l₁ with
  | nil => rfl
  | cons x rest ih =>
      have hx : p x = false := h x (List.mem_cons_self _ _)
      simp only [List.cons_append, List.find?, hx]
      exact ih (fun y hy => h y (List.mem_cons_of_mem _ hy))

theorem foldl_max_mem (gs : List ℚ) : ∀ g : ℚ, gs.foldl max g ∈ g :: gs := by
  induction gs with
  | nil => intro g; simp
  | cons x rest ih =>
      intro g
      rw [List.foldl_cons]
      rcases List.mem_cons.mp (ih (max g x)) with h | h
      · rw [h]
        rcases max_choice g x with hm | hm
        · rw [hm]; exact List.mem_cons_self _ _
        · rw [hm]; exact List.mem_cons_of_mem _ (List.mem_cons_self _ _)
      · exact List.mem_cons_of_mem _ (List.mem_cons_of_mem _ h)

theorem le_foldl_max (gs : List ℚ) :
    ∀ g : ℚ, ∀ x ∈ g :: gs, x ≤ gs.foldl max g := by
  induction gs with
  | nil => intro g x hx; simp at hx; simp [hx]
  | cons y rest ih =>
      intro g x hx
      rw [List.foldl_cons]
      rcases List.mem_cons.mp hx with h | h
      · subst h
        exact le_trans (le_max_left x y) (ih (max x y) _ (List.mem_cons_self _ _))
      · rcases List.mem_cons.mp h with h₁ | h₁
        · subst h₁
          exact le_trans (le_max_right g x) (ih (max g x) _ (List.mem_cons_self _ _))
        · exact ih (max g y) x (List.mem_cons_of_mem _ h₁)

theorem calc_no_answer_cons (g : ℚ) (gs : List ℚ) (best : ℚ) :
    calc_no_answer (g :: gs) best =
      some ({ answer := none, score := best - gs.foldl max g, context := none,
              offset_start := 0, offset_end := 0,
              offset_start_in_doc := none, offset_end_in_doc := none,
              document_id := none }, gs.foldl max g) := by
  simp [calc_no_answer]

theorem if_lt_eq_max (b s : ℚ) : (if b < s then s else b) = max b s := by
  rcases lt_or_le b s with h | h
  · rw [if_pos h, max_eq_right h.le]
  · rw [if_neg (not_lt.mpr h), max_eq_left h]

theorem bestScore_inner_fold (l : List QACandidate) :
    ∀ b : ℚ,
      l.foldl (fun b₁ a =>
        if check_no_answer a then b₁
        else if b₁ < a.score then a.score else b₁) b =
      ((l.filter (fun a => !check_no_answer a)).map
        (fun a => a.score)).foldl max b := by
  induction l with
  | nil => intro b; rfl
  | cons a rest ih =>
      intro b
      cases h : check_no_answer a with
      | true => simp [List.foldl_cons, h, ih, List.filter_cons, List.map_cons]
      | false =>
          simp only [List.foldl_cons, h, Bool.false_eq_true, if_false,
            if_lt_eq_max, List.filter_cons, Bool.not_false, if_true,
            List.map_cons]
          simp only [if_lt_eq_max] at ih
          exact ih (max b a.score)

theorem bestScoreAnswer_eq_foldl_max (preds : List QAPred) :
    bestScoreAnswer preds = (keptScores preds).foldl max 0 := by
  suffices h : ∀ (ps : List QAPred) (b : ℚ),
      ps.foldl (fun b₁ p => p.prediction.foldl
        (fun b₂ a => if check_no_answer a then b₂
                     else if b₂ < a.score then a.score else b₂) b₁) b =
      (keptScores ps).foldl max b by
    exact h preds 0
  intro ps
  induction ps with
  | nil => intro b; rfl
  | cons p rest ih =>
      intro b
      rw [List.foldl_cons, bestScore_inner_fold, ih]
      simp only [keptScores, List.flatMap_cons, List.foldl_append]

theorem nodup_keys_append_meta (r : Record) (hnd : (r.map Prod.fst).Nodup)
    (hab : containsKey r "meta" = false) (v : PyVal) :
    ((r ++ [("meta", v)]).map Prod.fst).Nodup := by
  rw [List.map_append, List.nodup_append]
  refine ⟨hnd, by simp, ?_⟩
  intro a ha hb
  simp only [List.map_cons, List.map_nil, List.mem_singleton] at hb
  subst hb
  obtain ⟨kv, hkv, hk⟩ := List.mem_map.mp ha
  have : containsKey r "meta" = true :=
    (containsKey_iff_exists_mem r "meta").mpr ⟨kv, hkv, hk⟩
  rw [hab] at this
  exact Bool.false_ne_true this

/- Claim theorems. -/

/-- C1: for every non-empty tag-criteria mapping, `get_document_ids_by_tags`
returns exactly the ids of documents that have, for every requested
criterion (a key of the mapping, which the store matches against the tag
`value` column), at least one associated tag whose `value` field equals
that criterion — an AND across the requested criteria, a document
qualifying per criterion if at least one of its tags matches — and no
other ids. -/
theorem get_document_ids_by_tags_exact (rows : List DocumentRow)
    (tags : List (String × String)) (h : tags ≠ []) :
    ∃ ids, get_document_ids_by_tags rows tags = .ok ids ∧
      ∀ i, i ∈ ids ↔
        ∃ d ∈ rows, d.id = i ∧ ∀ kv ∈ tags, ∃ t ∈ d.tags, t.value = kv.1 := by
  have hne : tags.isEmpty = false := by
    cases tags with
    | nil => exact absurd rfl h
    | cons a l => rfl
  have heq : get_document_ids_by_tags rows tags =
      .ok ((rows.filter (fun d =>
        !d.tags.isEmpty &&
        tags.all (fun kv =>
          decide (0 < d.tags.countP (fun t => t.value == kv.1))))).map
      (fun d => d.id)) := by
    simp [get_document_ids_by_tags, hne]
  refine ⟨_, heq, fun i => ?_⟩
  simp only [List.mem_map, List.mem_filter]
  constructor
  · rintro ⟨d, ⟨hd, hcond⟩, rfl⟩
    refine ⟨d, hd, rfl, ?_⟩
    simp only [Bool.and_eq_true, List.all_eq_true, decide_eq_true_eq,
      List.countP_pos_iff, beq_iff_eq] at hcond
    intro kv hkv
    exact hcond.2 kv hkv
  · rintro ⟨d, hd, rfl, hall⟩
    refine ⟨d, ⟨hd, ?_⟩, rfl⟩
    simp only [Bool.and_eq_true, List.all_eq_true, decide_eq_true_eq,
      List.countP_pos_iff, beq_iff_eq]
    constructor
    · cases tags with
      | nil => exact absurd rfl h
      | cons kv₀ rest =>
          obtain ⟨t, ht, _⟩ := hall kv₀ (List.mem_cons_self _ _)
          cases htags : d.tags with
          | nil => rw [htags] at ht; simp at ht
          | cons u us => simp [htags]
    · intro kv hkv
      exact hall kv hkv

/-- Witness for C1 at a concrete two-document store and the criteria
mapping with single key `"color"`. -/
theorem get_document_ids_by_tags_exact_witness :
    ([("color", "red")] : List (String × String)) ≠ [] ∧
    (∃ ids, get_document_ids_by_tags tagStoreEx [("color", "red")] = .ok ids ∧
      ∀ i, i ∈ ids ↔
        ∃ d ∈ tagStoreEx, d.id = i ∧
          ∀ kv ∈ ([("color", "red")] : List (String × String)),
            ∃ t ∈ d.tags, t.value = kv.1) :=
  ⟨by decide, get_document_ids_by_tags_exact tagStoreEx [("color", "red")] (by decide)⟩

/-- C3 (code bug): `get_document_by_id` does not return an optional
absence on a lookup miss — `_convert_sql_row_to_document` dereferences the
`None` row and raises `AttributeError`, both on the empty store and on a
populated store queried with an absent id, contradicting the function's own
`Optional[DocumentSchema]` annotation and the spec's not-found-is-normal
contract. -/
theorem get_document_by_id_miss_raises :
    get_document_by_id [] 1 = .error .attributeError ∧
    get_document_by_id
      [{ id := 1, text := .str "t", meta_data := .dict [], tags := [] }] 2 =
      .error .attributeError := by
  exact ⟨rfl, rfl⟩

/-- C5: invoking fusion with an empty documents sequence fails (the gap
list is empty, so the `np.max` reduction raises — the spec's `EmptyCorpus`)
instead of returning a result: no answer list and no no-answer estimate are
produced, for any configuration, question and `top_k`. -/
theorem predict_empty_documents (cfg : FARMConfig) (q : String)
    (topK : Option Nat) : predict cfg q [] topK = .error .emptyCorpus := rfl

/-- C2: for every non-empty gap list and every `best_score_answer`, the
combined no-answer score equals `best_score_answer` minus the maximum gap,
with the same formula regardless of the signs of the gaps (both arms of the
all-negative test in `_calc_no_answer` compute the same expression); and on
the spec's worked example — gaps `{-2.0, 1.5}`, `best_score_answer = 9.0` —
the no-answer score is `7.5` and the merged list ranks it between the
candidates scored `9.0` and `7.0`. -/
theorem calc_no_answer_formula :
    (∀ (gaps : List ℚ) (best : ℚ), gaps ≠ [] →
      ∃ na mg, calc_no_answer gaps best = some (na, mg) ∧
        mg ∈ gaps ∧ (∀ x ∈ gaps, x ≤ mg) ∧ na.score = best - mg) ∧
    (∃ r, predict cfgEx "who" [predD1, predD2] none = .ok r ∧
      r.answers.map (fun a => a.score) = [9, 15 / 2, 7] ∧
      r.no_ans_gap = 3 / 2) := by
  constructor
  · intro gaps best hne
    cases gaps with
    | nil => exact absurd rfl hne
    | cons g gs =>
        exact ⟨_, _, calc_no_answer_cons g gs best, foldl_max_mem gs g,
          le_foldl_max gs g, rfl⟩
  · refine ⟨_, rfl, ?_, ?_⟩
    · have h₁ : ¬(9 - 3 / 2 : ℚ) ≤ 7 := by norm_num
      have h₂ : (9 - 3 / 2 : ℚ) ≤ 9 := by norm_num
      have h₃ : ¬(-2 : ℚ) < 0 ∨ ¬(3 / 2 : ℚ) < 0 := by norm_num
      have h₄ : max (-2 : ℚ) (3 / 2) = 3 / 2 := by
        rw [max_eq_right]; norm_num
      have h₅ : (15 / 2 : ℚ) ≤ 9 := by norm_num
      have h₆ : ¬(15 / 2 : ℚ) ≤ 7 := by norm_num
      have h₇ : ¬(9 : ℚ) < 7 := by norm_num
      have h₈ : ¬(9 : ℚ) ≤ 7 + 3 / 2 := by norm_num
      have h₉ : (9 : ℚ) ≤ 9 + 3 / 2 := by norm_num
      simp [predict, calc_no_answer, bestScoreAnswer, keptAnswers,
        answersOfPred, formatAnswer, check_no_answer, mergedPool,
        truncateTopK, cfgEx, predD1, predD2, sortAnswers, insertDesc,
        h₁, h₂, h₃, h₄, h₅, h₆, h₇, h₈, h₉]
      norm_num
    · simp [predict, calc_no_answer, predD1, predD2]
      norm_num

/-- Witness for C2 at the spec example's gap list `[-2, 3/2]` and best
score `9`. -/
theorem calc_no_answer_formula_witness :
    ([(-2 : ℚ), 3 / 2] ≠ ([] : List ℚ)) ∧
    (∃ na mg, calc_no_answer [(-2 : ℚ), 3 / 2] 9 = some (na, mg) ∧
      mg ∈ [(-2 : ℚ), 3 / 2] ∧ (∀ x ∈ [(-2 : ℚ), 3 / 2], x ≤ mg) ∧
      na.score = 9 - mg) :=
  ⟨by simp, calc_no_answer_formula.1 [(-2 : ℚ), 3 / 2] 9 (by simp)⟩

/-- C4 counterexample: the claim says `best_score_answer` equals the
maximum raw score over all kept candidates even when every kept score is
negative; but on a single document whose only kept candidate has score
`-5` the accumulator (initialised to `0` and only ever raised) stays `0`,
not `-5`. -/
theorem bestScoreAnswer_not_max_kept :
    maxKeptScoreSpec [predNeg] = some (-5) ∧
    bestScoreAnswer [predNeg] = 0 ∧
    bestScoreAnswer [predNeg] ≠ -5 := by
  refine ⟨?_, ?_, ?_⟩
  · simp [maxKeptScoreSpec, keptScores, check_no_answer, predNeg,
      List.max?]
  · simp [bestScoreAnswer, check_no_answer, predNeg]
  · simp [bestScoreAnswer, check_no_answer, predNeg]

/-- C4 amended: `best_score_answer` is the maximum of `0` and the raw
scores of all kept (non-no-answer) candidates of all documents — it bounds
every kept score from above, is never negative, and is either `0` or one of
the kept scores (so when every kept score is negative, or there is no kept
candidate, it is `0` rather than the maximum raw score). -/
theorem bestScoreAnswer_clamps_at_zero (preds : List QAPred) :
    0 ≤ bestScoreAnswer preds ∧
    (∀ s ∈ keptScores preds, s ≤ bestScoreAnswer preds) ∧
    (bestScoreAnswer preds = 0 ∨ bestScoreAnswer preds ∈ keptScores preds) := by
  rw [bestScoreAnswer_eq_foldl_max]
  refine ⟨le_foldl_max (keptScores preds) 0 0 (List.mem_cons_self _ _),
    fun s hs => le_foldl_max (keptScores preds) 0 s (List.mem_cons_of_mem _ hs),
    ?_⟩
  rcases List.mem_cons.mp (foldl_max_mem (keptScores preds) 0) with h | h
  · exact Or.inl h
  · exact Or.inr h

/-- Witness for the amended C4 at the all-negative single document. -/
theorem bestScoreAnswer_clamps_at_zero_witness :
    0 ≤ bestScoreAnswer [predNeg] ∧
    (∀ s ∈ keptScores [predNeg], s ≤ bestScoreAnswer [predNeg]) ∧
    (bestScoreAnswer [predNeg] = 0 ∨
      bestScoreAnswer [predNeg] ∈ keptScores [predNeg]) :=
  bestScoreAnswer_clamps_at_zero [predNeg]

/-- C6 counterexample: the claim says a candidate is discarded as the
no-answer placeholder exactly when a zero-length offset pair is combined
with the sentinel answer text; but `_check_no_answer` discards this
candidate, whose offset pair `(3, 7)` is not zero-length, because its
answer text alone is the sentinel. -/
theorem check_no_answer_ignores_offsets :
    check_no_answer candSentinelNonzero = true ∧
    ¬(candSentinelNonzero.offset_answer_start = 0 ∧
      candSentinelNonzero.offset_answer_end = 0) := by
  exact ⟨by decide, by decide⟩

/-- C6 amended: during fusion a candidate is discarded as a no-answer
placeholder exactly when its answer text equals the sentinel `"no_answer"`;
the offsets play no role (two candidates with the same answer text receive
the same decision regardless of their offsets — a zero-length offset pair
with a different answer text is merely logged and the candidate kept). -/
theorem check_no_answer_sentinel_only (c c' : QACandidate)
    (h : c.answer = c'.answer) :
    check_no_answer c = check_no_answer c' ∧
    (check_no_answer c = true ↔ c.answer = "no_answer") := by
  constructor
  · simp [check_no_answer, h]
  · by_cases hc : c.answer = "no_answer" <;> simp [check_no_answer, hc]

/-- Witness for the amended C6: two sentinel candidates that differ in
their offsets get the same (discard) decision. -/
theorem check_no_answer_sentinel_only_witness :
    candSentinelNonzero.answer = candSentinelZero.answer ∧
    (check_no_answer candSentinelNonzero = check_no_answer candSentinelZero ∧
     (check_no_answer candSentinelNonzero = true ↔
       candSentinelNonzero.answer = "no_answer")) :=
  ⟨by decide,
   check_no_answer_sentinel_only candSentinelNonzero candSentinelZero (by decide)⟩

/-- C7: for every document length, answer offsets within the document and
non-negative window size — including windows exceeding the document
length — both clamped context boundaries `max(0, start - window)` and
`min(len(text), end + window)` lie within `[0, len(text)]`. -/
theorem contextWindowBounds_within (textLen s e w : Int)
    (hs0 : 0 ≤ s) (hsl : s ≤ textLen) (he0 : 0 ≤ e) (hw0 : 0 ≤ w) :
    0 ≤ (contextWindowBounds textLen s e w).1 ∧
    (contextWindowBounds textLen s e w).1 ≤ textLen ∧
    0 ≤ (contextWindowBounds textLen s e w).2 ∧
    (contextWindowBounds textLen s e w).2 ≤ textLen := by
  have h0l : (0 : Int) ≤ textLen := le_trans hs0 hsl
  simp only [contextWindowBounds]
  refine ⟨le_max_left _ _, ?_, ?_, min_le_left _ _⟩
  · exact max_le h0l (le_trans (by linarith) hsl)
  · exact le_min h0l (by linarith)

/-- Witness for C7 with a window (100) far exceeding the document length
(5). -/
theorem contextWindowBounds_within_witness :
    ((0 : Int) ≤ 3 ∧ (3 : Int) ≤ 5 ∧ (0 : Int) ≤ 4 ∧ (0 : Int) ≤ 100) ∧
    (0 ≤ (contextWindowBounds 5 3 4 100).1 ∧
     (contextWindowBounds 5 3 4 100).1 ≤ 5 ∧
     0 ≤ (contextWindowBounds 5 3 4 100).2 ∧
     (contextWindowBounds 5 3 4 100).2 ≤ 5) :=
  ⟨by decide,
   contextWindowBounds_within 5 3 4 100 (by decide) (by decide) (by decide)
     (by decide)⟩

/-- C8: for every merged candidate pool (any configuration and any
non-empty prediction set), `predict` with `top_k = 0` returns an empty
answer list without error, and `predict` with `top_k` unspecified (`None`)
returns the entire sorted merged pool untruncated. -/
theorem predict_top_k_zero_and_none (cfg : FARMConfig) (q : String)
    (preds : List QAPred) (h : preds ≠ []) :
    (∃ r₀, predict cfg q preds (some 0) = .ok r₀ ∧ r₀.answers = []) ∧
    (∃ r na mg,
       predict cfg q preds none = .ok r ∧
       calc_no_answer (preds.map (fun p => p.no_answer_gap))
         (bestScoreAnswer preds) = some (na, mg) ∧
       r.answers = sortAnswers (mergedPool cfg preds na)) := by
  cases preds with
  | nil => exact absurd rfl h
  | cons p ps =>
      exact ⟨⟨_, rfl, rfl⟩, ⟨_, _, _, rfl, rfl, rfl⟩⟩

/-- Witness for C8 at a one-document prediction set. -/
theorem predict_top_k_zero_and_none_witness :
    ([predSingle] : List QAPred) ≠ [] ∧
    ((∃ r₀, predict cfgNoNA "q" [predSingle] (some 0) = .ok r₀ ∧
        r₀.answers = []) ∧
     (∃ r na mg,
        predict cfgNoNA "q" [predSingle] none = .ok r ∧
        calc_no_answer ([predSingle].map (fun p => p.no_answer_gap))
          (bestScoreAnswer [predSingle]) = some (na, mg) ∧
        r.answers = sortAnswers (mergedPool cfgNoNA [predSingle] na))) :=
  ⟨by decide, predict_top_k_zero_and_none cfgNoNA "q" [predSingle] (by decide)⟩

/-- C9: writing a record whose keys other than `text` are all outside
`{text, meta, tags}` and reading the stored document back yields a `meta`
mapping equal to exactly those extra key-value pairs, in record order. -/
theorem write_then_read_meta_roundtrip (rows : List DocumentRow) (r : Record)
    (hnd : (r.map Prod.fst).Nodup)
    (htext : containsKey r "text" = true)
    (hextra : ∀ kv ∈ r, kv.1 ≠ "text" → isReserved kv.1 = false)
    (hid : ∀ row ∈ rows, row.id ≠ rows.length + 1) :
    ∃ rows₁ r₁ d,
      write_documents rows [r] = .ok (rows₁, [r₁]) ∧
      get_document_by_id rows₁ (rows.length + 1) = .ok d ∧
      d.meta = .dict (r.filter (fun kv => !isReserved kv.1)) := by
  have hmetaAbsent : containsKey r "meta" = false := by
    cases hb : containsKey r "meta" with
    | false => rfl
    | true =>
        obtain ⟨kv, hkv, hk⟩ := (containsKey_iff_exists_mem r "meta").mp hb
        have hres := hextra kv hkv (by rw [hk]; decide)
        rw [hk] at hres
        simp [isReserved] at hres
  have hr₂eq : setKey r "meta" (.dict []) = r ++ [("meta", .dict [])] :=
    setKey_of_not_contains r _ _ hmetaAbsent
  have hproc : processRecord r =
      (setKey r "meta" (.dict [])).foldl foldStep (setKey r "meta" (.dict [])) := by
    simp [processRecord, hmetaAbsent]
  have hm₂ : lookupKey (setKey r "meta" (.dict [])) "meta" = some (.dict []) :=
    lookupKey_setKey_self r "meta" _
  obtain ⟨hmetaFold, hframe⟩ :=
    foldl_foldStep_meta (setKey r "meta" (.dict []))
      (setKey r "meta" (.dict [])) [] hm₂
  have hnd₂ : ((setKey r "meta" (.dict [])).map Prod.fst).Nodup := by
    rw [hr₂eq]
    exact nodup_keys_append_meta r hnd hmetaAbsent _
  have hmetaVal : (setKey r "meta" (.dict [])).foldl metaStep [] =
      r.filter (fun kv => !isReserved kv.1) := by
    rw [foldl_metaStep_append (setKey r "meta" (.dict [])) [] hnd₂
      (fun kv _ _ => rfl), hr₂eq, List.filter_append]
    simp [isReserved]
  have htext₂ : lookupKey (processRecord r) "text" = lookupKey r "text" := by
    rw [hproc, hframe "text" (by decide)]
    exact lookupKey_setKey_ne r "meta" "text" _ (by decide)
  obtain ⟨tv, htv⟩ : ∃ tv, lookupKey r "text" = some tv := by
    cases hl : lookupKey r "text" with
    | none => rw [containsKey, hl] at htext; simp at htext
    | some v => exact ⟨v, rfl⟩
  have hmetaProc : lookupKey (processRecord r) "meta" =
      some (.dict (r.filter (fun kv => !isReserved kv.1))) := by
    rw [hproc, hmetaFold, hmetaVal]
  have hw1 : writeOne rows r =
      .ok (rows ++ [writtenRow rows tv (r.filter (fun kv => !isReserved kv.1))],
           processRecord r) := by
    rw [writeOne]
    rw [htext₂.trans htv, hmetaProc]
    rfl
  have hwd : write_documents rows [r] =
      .ok (rows ++ [writtenRow rows tv (r.filter (fun kv => !isReserved kv.1))],
           [processRecord r]) := by
    rw [write_documents, hw1]
    rfl
  have hfind : (rows ++
        [writtenRow rows tv (r.filter (fun kv => !isReserved kv.1))]).find?
        (fun x => x.id == rows.length + 1) =
      some (writtenRow rows tv (r.filter (fun kv => !isReserved kv.1))) := by
    rw [find?_append_of_none]
    · simp [List.find?, writtenRow]
    · intro x hx
      simpa using hid x hx
  have hget : get_document_by_id
      (rows ++ [writtenRow rows tv (r.filter (fun kv => !isReserved kv.1))])
      (rows.length + 1) =
      .ok { id := rows.length + 1, text := tv,
            meta := .dict (r.filter (fun kv => !isReserved kv.1)),
            tags := [] } := by
    rw [get_document_by_id, hfind]
    rfl
  exact ⟨_, _, _, hwd, hget, rfl⟩

/-- Witness for C9: writing `{text: "x", author: "a"}` into an empty store
and reading the stored document back yields `meta == {"author": "a"}`. -/
theorem write_then_read_meta_roundtrip_witness :
    (recordEx.map Prod.fst).Nodup ∧
    containsKey recordEx "text" = true ∧
    (∃ rows₁ r₁ d,
      write_documents [] [recordEx] = .ok (rows₁, [r₁]) ∧
      get_document_by_id rows₁ 1 = .ok d ∧
      d.meta = .dict (recordEx.filter (fun kv => !isReserved kv.1))) :=
  ⟨by decide, by decide,
   write_then_read_meta_roundtrip [] recordEx (by decide) (by decide)
     (by decide) (by decide)⟩

/-- C10 (frame effect): `write_documents` mutates each caller-supplied
record in place — after the call the record contains a `"meta"` key, no key
has been removed, and every extra field (key outside `{text, meta, tags}`)
is present both at the record's top level and inside `record["meta"]`.
Stated for records with unique keys whose pre-existing `meta`, if any, is a
dict (otherwise the Python loop raises `TypeError`). -/
theorem write_documents_mutates_records (r : Record)
    (hnd : (r.map Prod.fst).Nodup)
    (hm : containsKey r "meta" = false ∨
          ∃ m, lookupKey r "meta" = some (.dict m)) :
    containsKey (processRecord r) "meta" = true ∧
    (∀ k, containsKey r k = true → containsKey (processRecord r) k = true) ∧
    (∀ kv ∈ r, isReserved kv.1 = false →
      lookupKey (processRecord r) kv.1 = some kv.2 ∧
      ∃ m', lookupKey (processRecord r) "meta" = some (.dict m') ∧
        lookupKey m' kv.1 = some kv.2) := by
  obtain ⟨r₂, m₀, hproc, hm₂, hpres, hnd₂, hsub⟩ :
      ∃ r₂ m₀, processRecord r = r₂.foldl foldStep r₂ ∧
        lookupKey r₂ "meta" = some (.dict m₀) ∧
        (∀ k, k ≠ "meta" → lookupKey r₂ k = lookupKey r k) ∧
        (r₂.map Prod.fst).Nodup ∧ (∀ kv ∈ r, kv ∈ r₂) := by
    rcases hm with hab | ⟨m, hmm⟩
    · refine ⟨setKey r "meta" (.dict []), [], ?_,
        lookupKey_setKey_self r _ _, ?_, ?_, ?_⟩
      · simp [processRecord, hab]
      · intro k hk
        exact lookupKey_setKey_ne r "meta" k _ hk
      · rw [setKey_of_not_contains r _ _ hab]
        exact nodup_keys_append_meta r hnd hab _
      · intro kv hkv
        rw [setKey_of_not_contains r _ _ hab]
        exact List.mem_append_left _ hkv
    · have hck : containsKey r "meta" = true := by rw [containsKey, hmm]; rfl
      exact ⟨r, m, by simp [processRecord, hck], hmm, fun k _ => rfl, hnd,
        fun kv h => h⟩
  obtain ⟨hmetaFold, hframe⟩ := foldl_foldStep_meta r₂ r₂ m₀ hm₂
  refine ⟨?_, ?_, ?_⟩
  · rw [hproc, containsKey, hmetaFold]
    rfl
  · intro k hk
    by_cases hkm : k = "meta"
    · subst hkm
      rw [hproc, containsKey, hmetaFold]
      rfl
    · rw [containsKey, hproc, hframe k hkm, hpres k hkm]
      rw [containsKey] at hk
      exact hk
  · intro kv hkv hres
    have hkm : kv.1 ≠ "meta" := by
      intro he
      rw [he] at hres
      simp [isReserved] at hres
    constructor
    · rw [hproc, hframe kv.1 hkm, hpres kv.1 hkm]
      exact lookupKey_of_mem_nodup r kv hnd hkv
    · refine ⟨r₂.foldl metaStep m₀, by rw [hproc]; exact hmetaFold, ?_⟩
      exact lookupKey_foldl_metaStep_mem r₂ m₀ kv hnd₂ (hsub kv hkv) hres

/-- Witness for C10 at a record that already carries a `meta` dict and one
extra field. -/
theorem write_documents_mutates_records_witness :
    (recordWithMeta.map Prod.fst).Nodup ∧
    (∃ m, lookupKey recordWithMeta "meta" = some (.dict m)) ∧
    (containsKey (processRecord recordWithMeta) "meta" = true ∧
     (∀ k, containsKey recordWithMeta k = true →
        containsKey (processRecord recordWithMeta) k = true) ∧
     (∀ kv ∈ recordWithMeta, isReserved kv.1 = false →
        lookupKey (processRecord recordWithMeta) kv.1 = some kv.2 ∧
        ∃ m', lookupKey (processRecord recordWithMeta) "meta" =
            some (.dict m') ∧
          lookupKey m' kv.1 = some kv.2)) :=
  ⟨by decide, ⟨[("lang", .str "en")], rfl⟩,
   write_documents_mutates_records recordWithMeta (by decide)
     (Or.inr ⟨[("lang", .str "en")], rfl⟩)⟩
